import Mathlib

/-! Shallow embedding of the `usort` hint family of `src/src/vm/hints/usort.rs`
(cairo-vm): `usort_enter_scope`, `usort_body`, `verify_usort`,
`verify_multiplicity_assert`, `verify_multiplicity_body`.

Modelling choices, each tied to the source:
* `BigInt` values are `Int`; `u64`/`usize` quantities are `Nat` (the source
  never wraps: positions are `< input_len_u64 ≤ 2^64 - 1`, so `current_pos + 1`
  cannot overflow a `u64`).
* The execution-scope variable store (`ExecutionScopesProxy`) is a record of
  the four names this module touches, each an `Option PyValueType`; the typed
  getters (`get_u64`, `get_mut_dict_int_list_u64_ref`, `get_listu64_ref`,
  `get_int`) fail both on a missing name and on a wrongly-typed value, as the
  proxy does.
* The `HashMap<BigInt, Vec<u64>>` `positions_dict` is an association list.
  The source only ever accesses it through keyed operations
  (`entry`/`or_insert`/`push`, index lookup, `remove`) and never iterates it,
  so keyed-access semantics are a faithful model.
* The input region of memory is a `List Int`: `memory.get_integer(input_ptr + i)`
  succeeds exactly when `i < mem.length`. Resolution of the `input`, `input_len`,
  `value`, `output_len`, `output`, `multiplicities` and `next_item_index`
  identifiers is the external Identifier Resolver, so resolved inputs are
  parameters and resolved outputs are returned in `UsortOutput`; the contents
  of the two freshly allocated segments are the `output`/`multiplicities`
  lists of `UsortOutput`.
* Every stateful operation is `ExecScopes → Except Error α × ExecScopes`, so
  an error return also reports the (possibly mutated) scope state, exactly
  mirroring which Rust mutations have happened before the early `return Err`.
* `Vec::binary_search` is embedded by its documented contract on the sorted,
  duplicate-free `output` vector: `.ok i` when the element is at `i`,
  `.error i` with the sorted-insertion index otherwise.
-/

namespace Usort

/-- The `VirtualMachineError` variants reachable from this module. `ScopeVarFail`
stands for the proxy errors raised by a missing or wrongly-typed scope variable;
`MemoryGetFail` for a failed `memory.get_integer` on the input region. -/
inductive VirtualMachineError where
  | BigintToUsizeFail : VirtualMachineError
  | UsortOutOfRange (cap : Nat) (len : Int) : VirtualMachineError
  | UnexpectedPositionsDictFail : VirtualMachineError
  | PositionsLengthNotZero : VirtualMachineError
  | CouldntPopPositions : VirtualMachineError
  | ScopeVarFail : VirtualMachineError
  | MemoryGetFail : VirtualMachineError
  deriving DecidableEq, Repr

/-- The `PyValueType` variants this module stores in the scope. -/
inductive PyValueType where
  | pyNone : PyValueType
  | u64 (n : Nat) : PyValueType
  | listU64 (l : List Nat) : PyValueType
  | dictBigIntListU64 (d : List (Int × List Nat)) : PyValueType
  | int (i : Int) : PyValueType
  deriving DecidableEq, Repr

/-- The scope variables the usort hints read or write, each `none` when the
name is absent from the current scope. -/
structure ExecScopes where
  usort_max_size : Option PyValueType
  positions_dict : Option PyValueType
  positions : Option PyValueType
  last_pos : Option PyValueType
  deriving DecidableEq, Repr

/-- Model of `ExecutionScopesProxy::get_u64`: `Ok` only on a stored `U64`. -/
def get_u64 (v : Option PyValueType) : Except VirtualMachineError Nat :=
  match v with
  | some (.u64 n) => .ok n
  | _ => .error .ScopeVarFail

/-- Model of `ExecutionScopesProxy::get_mut_dict_int_list_u64_ref`. -/
def get_dict (v : Option PyValueType) :
    Except VirtualMachineError (List (Int × List Nat)) :=
  match v with
  | some (.dictBigIntListU64 d) => .ok d
  | _ => .error .ScopeVarFail

/-- Model of `ExecutionScopesProxy::get_listu64_ref` and `get_mut_listu64_ref`. -/
def get_listu64 (v : Option PyValueType) : Except VirtualMachineError (List Nat) :=
  match v with
  | some (.listU64 l) => .ok l
  | _ => .error .ScopeVarFail

/-- Model of `ExecutionScopesProxy::get_int`. -/
def get_int (v : Option PyValueType) : Except VirtualMachineError Int :=
  match v with
  | some (.int i) => .ok i
  | _ => .error .ScopeVarFail

/-- Association-list model of `HashMap<BigInt, Vec<u64>>`: lookup. -/
def dictLookup : List (Int × List Nat) → Int → Option (List Nat)
  | [], _ => none
  | (k, l) :: rest, v => if k = v then some l else dictLookup rest v

/-- Lookup with the `or_insert(Vec::new())` default. -/
def dictLookupD (d : List (Int × List Nat)) (v : Int) : List Nat :=
  (dictLookup d v).getD []

/-- Model of `HashMap::remove` (the residual map; the removed value is `dictLookup`). -/
def dictRemove : List (Int × List Nat) → Int → List (Int × List Nat)
  | [], _ => []
  | (k, l) :: rest, v => if k = v then rest else (k, l) :: dictRemove rest v

/-- Model of `positions_dict.entry(val).or_insert(Vec::new()).push(i)`. -/
def dictPush : List (Int × List Nat) → Int → Nat → List (Int × List Nat)
  | [], v, i => [(v, [i])]
  | (k, l) :: rest, v, i =>
    if k = v then (k, l ++ [i]) :: rest else (k, l) :: dictPush rest v i

/-- Model of `Vec::binary_search` on the sorted `output` vector, by its contract:
`.ok i` when the element is present at index `i`, `.error i` with the
sorted-insertion index when absent. -/
def binary_search : List Int → Int → Except Nat Nat
  | [], _ => .error 0
  | x :: xs, v =>
    if v < x then .error 0
    else if v = x then .ok 0
    else
      match binary_search xs v with
      | .ok i => .ok (i + 1)
      | .error i => .error (i + 1)

/-- Model of `Vec::insert(output_index, val)`. -/
def insertAt (i : Nat) (v : Int) (l : List Int) : List Int :=
  l.take i ++ v :: l.drop i

/-- Model of `BigInt::to_u64`. -/
def to_u64 (i : Int) : Option Nat :=
  if 0 ≤ i ∧ i < 2 ^ 64 then some i.toNat else none

/-- The main scan of `usort_body` (lines 57-68): for index `i` upward while
`k` indices remain, read `mem[i]`, insert it into the sorted duplicate-free
`output` when absent, and append `i` to its entry in `positions_dict`. -/
def usort_loop (mem : List Int) :
    Nat → Nat → List Int → List (Int × List Nat) →
    Except VirtualMachineError (List Int × List (Int × List Nat))
  | 0, _, output, pd => .ok (output, pd)
  | k + 1, i, output, pd =>
    match mem.get? i with
    | none => .error .MemoryGetFail
    | some val =>
      let output' :=
        match binary_search output val with
        | .ok _ => output
        | .error output_index => insertAt output_index val output
      usort_loop mem k (i + 1) output' (dictPush pd val i)

/-- The values `usort_body` writes: `output_len` into the `ids` variable, and
the element-by-element contents of the two freshly allocated segments. -/
structure UsortOutput where
  output_len : Nat
  output : List Int
  multiplicities : List Nat
  deriving DecidableEq, Repr

/-- Body of `usort_body` after the cap check succeeded: scan loop, multiplicities
derived from `positions_dict[k]` for `k` in `output` order, `positions_dict`
stored into the scope, segment and `ids` writes returned. `positions_dict[k]`
(a panicking index in Rust) is modelled with the `[]` default; it is reachable
only with `k` a key of the dict, where both agree. -/
def usort_body_main (mem : List Int) (n : Nat) (s : ExecScopes) :
    Except VirtualMachineError UsortOutput × ExecScopes :=
  match usort_loop mem n 0 [] [] with
  | .error e => (.error e, s)
  | .ok (output, pd) =>
    let multiplicities := output.map (fun k => (dictLookupD pd k).length)
    (.ok ⟨output.length, output, multiplicities⟩,
      { s with positions_dict := some (.dictBigIntListU64 pd) })

/-- Model of `usort_body` (lines 30-113). `mem` is the input region `input` points at;
`input_len` the resolved `ids` integer. The `usort_max_size` lookup result is
only consulted when `Ok` (line 48); its `Err` is never propagated. -/
def usort_body (mem : List Int) (input_len : Int) (s : ExecScopes) :
    Except VirtualMachineError UsortOutput × ExecScopes :=
  match to_u64 input_len with
  | none => (.error .BigintToUsizeFail, s)
  | some input_len_u64 =>
    match get_u64 s.usort_max_size with
    | .ok usort_max_size =>
      if input_len_u64 > usort_max_size then
        (.error (.UsortOutOfRange usort_max_size input_len), s)
      else usort_body_main mem input_len_u64 s
    | .error _ => usort_body_main mem input_len_u64 s

/-- Model of `usort_enter_scope` (lines 17-28): read the inherited cap (`U64` on `Ok`,
the `None` variant on `Err`) and enter a fresh scope seeded with only it. -/
def usort_enter_scope (s : ExecScopes) : ExecScopes :=
  let usort_max_size :=
    match get_u64 s.usort_max_size with
    | .ok n => PyValueType.u64 n
    | .error _ => PyValueType.pyNone
  { usort_max_size := some usort_max_size
    positions_dict := none
    positions := none
    last_pos := none }

/-- Model of `verify_usort` (lines 115-133): remove the entry of `value` from `positions_dict`
(failing when absent), store it reversed as `positions`, set `last_pos := 0`.
`value` is the resolved `ids` integer. -/
def verify_usort (value : Int) (s : ExecScopes) :
    Except VirtualMachineError Unit × ExecScopes :=
  match get_dict s.positions_dict with
  | .error e => (.error e, s)
  | .ok pd =>
    match dictLookup pd value with
    | none => (.error .UnexpectedPositionsDictFail, s)
    | some l =>
      (.ok (),
        { s with
          positions_dict := some (.dictBigIntListU64 (dictRemove pd value))
          positions := some (.listU64 l.reverse)
          last_pos := some (.int 0) })

/-- Model of `verify_multiplicity_assert` (lines 135-144): succeed exactly when the
`positions` list is empty; a pure read, the scope is never changed. -/
def verify_multiplicity_assert (s : ExecScopes) :
    Except VirtualMachineError Unit × ExecScopes :=
  match get_listu64 s.positions with
  | .error e => (.error e, s)
  | .ok positions =>
    if positions.length = 0 then (.ok (), s)
    else (.error .PositionsLengthNotZero, s)

/-- Model of `verify_multiplicity_body` (lines 146-160): pop the last element of
`positions` (failing when empty, in which place `Vec::pop` has not mutated),
return `pos_diff = current_pos - last_pos` (the value written to
`next_item_index`), and set `last_pos := current_pos + 1`. -/
def verify_multiplicity_body (s : ExecScopes) :
    Except VirtualMachineError Int × ExecScopes :=
  match get_listu64 s.positions with
  | .error e => (.error e, s)
  | .ok positions =>
    match positions.getLast? with
    | none => (.error .CouldntPopPositions, s)
    | some current_pos =>
      let s₁ := { s with positions := some (.listU64 positions.dropLast) }
      match get_int s₁.last_pos with
      | .error e => (.error e, s₁)
      | .ok last_pos =>
        (.ok ((current_pos : Int) - last_pos),
          { s₁ with last_pos := some (.int ((current_pos + 1 : Nat) : Int)) })

/-- The surrounding bytecode's inner loop: `k` consecutive
`verify_multiplicity_body` calls. -/
def walk_n : Nat → ExecScopes → Except VirtualMachineError Unit × ExecScopes
  | 0, s => (.ok (), s)
  | k + 1, s =>
    match verify_multiplicity_body s with
    | (.error e, s') => (.error e, s')
    | (.ok _, s') => walk_n k s'

/-- One distinct value's verification round: `verify_usort`, then `m` walker
calls, then the exhaustion assertion. -/
def verify_value (v : Int) (m : Nat) (s : ExecScopes) :
    Except VirtualMachineError Unit × ExecScopes :=
  match verify_usort v s with
  | (.error e, s') => (.error e, s')
  | (.ok _, s') =>
    match walk_n m s' with
    | (.error e, s'') => (.error e, s'')
    | (.ok _, s'') => verify_multiplicity_assert s''

/-- The whole verification schedule over the `(value, multiplicity)` pairs in
output order. -/
def verify_all : List (Int × Nat) → ExecScopes →
    Except VirtualMachineError Unit × ExecScopes
  | [], s => (.ok (), s)
  | (v, m) :: rest, s =>
    match verify_value v m s with
    | (.error e, s') => (.error e, s')
    | (.ok _, s') => verify_all rest s'

/-- The ascending list of indices `j < i` at which `mem` holds `v`: the value
of `positions_dict[v]` after the scan has processed the first `i` indices. -/
def posOf (mem : List Int) (i : Nat) (v : Int) : List Nat :=
  (List.range i).filter (fun j => decide (mem.get? j = some v))

/-! Lemmas on the embedded `Vec::binary_search` and `Vec::insert` pair. -/

theorem binary_search_ok_mem {l : List Int} {v : Int} {i : Nat}
    (h : binary_search l v = .ok i) : v ∈ l := by
  induction l generalizing i with
  | nil => simp [binary_search] at h
  | cons x xs ih =>
    by_cases h1 : v < x
    · simp [binary_search, if_pos h1] at h
    · by_cases h2 : v = x
      · exact h2 ▸ List.mem_cons_self x xs
      · simp only [binary_search, if_neg h1, if_neg h2] at h
        cases hbs : binary_search xs v with
        | ok j => exact List.mem_cons_of_mem _ (ih hbs)
        | error j => rw [hbs] at h; cases h

theorem binary_search_err_not_mem {l : List Int} {v : Int} {i : Nat}
    (hs : l.Pairwise (· < ·)) (h : binary_search l v = .error i) : v ∉ l := by
  induction l generalizing i with
  | nil => simp
  | cons x xs ih =>
    rw [List.pairwise_cons] at hs
    by_cases h1 : v < x
    · intro hmem
      rcases List.mem_cons.mp hmem with rfl | hmem
      · exact lt_irrefl v h1
      · exact absurd (hs.1 v hmem) (not_lt.mpr (le_of_lt h1))
    · by_cases h2 : v = x
      · simp [binary_search, if_neg h1, if_pos h2] at h
      · simp only [binary_search, if_neg h1, if_neg h2] at h
        cases hbs : binary_search xs v with
        | ok j => rw [hbs] at h; cases h
        | error j =>
          intro hmem
          rcases List.mem_cons.mp hmem with rfl | hmem
          · exact h2 rfl
          · exact ih hs.2 hbs hmem

theorem mem_insertAt {l : List Int} {i : Nat} {v w : Int} :
    w ∈ insertAt i v l ↔ w = v ∨ w ∈ l := by
  conv_rhs => rw [← List.take_append_drop i l]
  simp only [insertAt, List.mem_append, List.mem_cons]
  tauto

theorem pairwise_insertAt {l : List Int} {v : Int} {i : Nat}
    (hs : l.Pairwise (· < ·)) (h : binary_search l v = .error i) :
    (insertAt i v l).Pairwise (· < ·) := by
  induction l generalizing i with
  | nil =>
    simp [binary_search] at h
    simp [insertAt]
  | cons x xs ih =>
    rw [List.pairwise_cons] at hs
    by_cases h1 : v < x
    · simp only [binary_search, if_pos h1] at h
      cases h
      rw [show insertAt 0 v (x :: xs) = v :: x :: xs from rfl]
      refine List.pairwise_cons.mpr ⟨?_, List.pairwise_cons.mpr hs⟩
      intro b hb
      rcases List.mem_cons.mp hb with rfl | hb
      · exact h1
      · exact lt_trans h1 (hs.1 b hb)
    · by_cases h2 : v = x
      · simp [binary_search, if_neg h1, if_pos h2] at h
      · simp only [binary_search, if_neg h1, if_neg h2] at h
        cases hbs : binary_search xs v with
        | ok j => rw [hbs] at h; cases h
        | error j =>
          rw [hbs] at h
          cases h
          rw [show insertAt (j + 1) v (x :: xs) = x :: insertAt j v xs from rfl]
          refine List.pairwise_cons.mpr ⟨?_, ih hs.2 hbs⟩
          intro b hb
          rcases mem_insertAt.mp hb with rfl | hb
          · exact lt_of_le_of_ne (not_lt.mp h1) (Ne.symm h2)
          · exact hs.1 b hb

theorem sum_map_insertAt (f : Int → Nat) {l : List Int} (i : Nat) (v : Int) :
    ((insertAt i v l).map f).sum = f v + (l.map f).sum := by
  conv_rhs => rw [← List.take_append_drop i l]
  simp only [insertAt, List.map_append, List.map_cons, List.sum_append, List.sum_cons]
  omega

theorem sum_map_succ_at {l : List Int} {f g : Int → Nat} {a : Int}
    (hnd : l.Nodup) (ha : a ∈ l) (hfa : f a = g a + 1)
    (hother : ∀ x ∈ l, x ≠ a → f x = g x) :
    (l.map f).sum = (l.map g).sum + 1 := by
  induction l with
  | nil => cases ha
  | cons x xs ih =>
    rw [List.nodup_cons] at hnd
    rcases List.mem_cons.mp ha with rfl | ha
    · have hcongr : ∀ y ∈ xs, f y = g y := fun y hy =>
        hother y (List.mem_cons_of_mem _ hy) (fun hya => hnd.1 (hya ▸ hy))
      simp only [List.map_cons, List.sum_cons, hfa]
      rw [List.map_congr_left hcongr]
      omega
    · have hxa : x ≠ a := fun hxa => hnd.1 (hxa ▸ ha)
      simp only [List.map_cons, List.sum_cons]
      rw [hother x (List.mem_cons_self x xs) hxa,
        ih hnd.2 ha (fun y hy hya => hother y (List.mem_cons_of_mem _ hy) hya)]
      omega

/-! Lemmas on the association-list model of `positions_dict`. -/

theorem dictLookup_push (pd : List (Int × List Nat)) (v w : Int) (i : Nat) :
    dictLookup (dictPush pd v i) w =
      if w = v then some (dictLookupD pd v ++ [i]) else dictLookup pd w := by
  induction pd with
  | nil =>
    by_cases h : w = v
    · simp [dictPush, dictLookup, dictLookupD, h]
    · simp [dictPush, dictLookup, dictLookupD, h, Ne.symm h]
  | cons e rest ih =>
    obtain ⟨k, l⟩ := e
    by_cases hkv : k = v
    · subst hkv
      by_cases hwk : w = k <;>
        simp [dictPush, dictLookup, dictLookupD, hwk, eq_comm]
    · by_cases hkw : k = w
      · subst hkw
        simp [dictPush, dictLookup, if_neg hkv, fun h : k = v => hkv h, eq_comm,
          Ne.symm hkv]
      · simp only [dictPush, if_neg hkv, dictLookup, if_neg hkw]
        rw [ih]
        by_cases hwv : w = v
        · simp only [if_pos hwv]
          have : dictLookupD ((k, l) :: rest) v = dictLookupD rest v := by
            simp [dictLookupD, dictLookup, if_neg hkv]
          rw [this]
        · simp [if_neg hwv]

theorem dictLookup_isSome_iff (pd : List (Int × List Nat)) (w : Int) :
    (dictLookup pd w).isSome ↔ w ∈ pd.map Prod.fst := by
  induction pd with
  | nil => simp [dictLookup]
  | cons e rest ih =>
    obtain ⟨k, l⟩ := e
    by_cases hkw : k = w
    · simp [dictLookup, hkw]
    · have hstep : dictLookup ((k, l) :: rest) w = dictLookup rest w := by
        simp [dictLookup, hkw]
      rw [hstep, ih, List.map_cons]
      simp [Ne.symm hkw]

theorem mem_keys_push (pd : List (Int × List Nat)) (v w : Int) (i : Nat) :
    w ∈ (dictPush pd v i).map Prod.fst ↔ w ∈ pd.map Prod.fst ∨ w = v := by
  rw [← dictLookup_isSome_iff, ← dictLookup_isSome_iff, dictLookup_push]
  by_cases hwv : w = v <;> simp [hwv]

theorem nodup_keys_push {pd : List (Int × List Nat)} (v : Int) (i : Nat)
    (h : (pd.map Prod.fst).Nodup) : ((dictPush pd v i).map Prod.fst).Nodup := by
  induction pd with
  | nil => simp [dictPush]
  | cons e rest ih =>
    obtain ⟨k, l⟩ := e
    simp only [List.map_cons, List.nodup_cons] at h
    by_cases hkv : k = v
    · simpa [dictPush, if_pos hkv, List.nodup_cons] using h
    · simp only [dictPush, if_neg hkv, List.map_cons, List.nodup_cons]
      refine ⟨?_, ih h.2⟩
      rw [mem_keys_push]
      rintro (hk | hk)
      · exact h.1 hk
      · exact hkv hk

theorem dictLookup_remove_ne (pd : List (Int × List Nat)) {v w : Int}
    (h : w ≠ v) : dictLookup (dictRemove pd v) w = dictLookup pd w := by
  induction pd with
  | nil => simp [dictRemove]
  | cons e rest ih =>
    obtain ⟨k, l⟩ := e
    by_cases hkv : k = v
    · subst hkv
      have hkw : ¬k = w := fun hkw => h hkw.symm
      simp [dictRemove, dictLookup, hkw]
    · simp only [dictRemove, if_neg hkv, dictLookup]
      by_cases hkw : k = w <;> simp [hkw, ih]

theorem dictLookup_remove_self {pd : List (Int × List Nat)} (v : Int)
    (h : (pd.map Prod.fst).Nodup) : dictLookup (dictRemove pd v) v = none := by
  induction pd with
  | nil => simp [dictRemove, dictLookup]
  | cons e rest ih =>
    obtain ⟨k, l⟩ := e
    simp only [List.map_cons, List.nodup_cons] at h
    by_cases hkv : k = v
    · subst hkv
      rw [show dictRemove ((k, l) :: rest) k = rest by simp [dictRemove]]
      rcases hlk : dictLookup rest k with _ | l'
      · rfl
      · exact absurd ((dictLookup_isSome_iff rest k).mp (by simp [hlk])) h.1
    · simp [dictRemove, dictLookup, hkv, ih h.2]

theorem dictRemove_sublist (pd : List (Int × List Nat)) (v : Int) :
    (dictRemove pd v).Sublist pd := by
  induction pd with
  | nil => simp [dictRemove]
  | cons e rest ih =>
    obtain ⟨k, l⟩ := e
    by_cases hkv : k = v
    · simp [dictRemove, hkv, List.sublist_cons_self (k, l) rest]
    · simpa [dictRemove, hkv] using ih.cons₂ (k, l)

theorem nodup_keys_remove {pd : List (Int × List Nat)} (v : Int)
    (h : (pd.map Prod.fst).Nodup) : ((dictRemove pd v).map Prod.fst).Nodup :=
  List.Nodup.sublist ((dictRemove_sublist pd v).map Prod.fst) h

theorem dict_eq_nil_of_lookup_none {pd : List (Int × List Nat)}
    (h : ∀ w, dictLookup pd w = none) : pd = [] := by
  cases pd with
  | nil => rfl
  | cons e rest =>
    obtain ⟨k, l⟩ := e
    have := h k
    simp [dictLookup] at this

/-! Lemmas on `posOf` and memory prefixes. -/

theorem posOf_zero (mem : List Int) (v : Int) : posOf mem 0 v = [] := rfl

theorem posOf_succ (mem : List Int) (i : Nat) (v : Int) :
    posOf mem (i + 1) v =
      posOf mem i v ++ if mem.get? i = some v then [i] else [] := by
  simp only [posOf, List.range_succ, List.filter_append]
  congr 1
  by_cases h : mem.get? i = some v
  · rw [List.get?_eq_getElem?] at h
    simp [List.get?_eq_getElem?, h]
  · rw [List.get?_eq_getElem?] at h
    simp [List.get?_eq_getElem?, h]

theorem posOf_mem_lt {mem : List Int} {i : Nat} {v : Int} {p : Nat}
    (h : p ∈ posOf mem i v) : p < i := by
  have := List.mem_filter.mp h
  exact List.mem_range.mp this.1

theorem posOf_pairwise (mem : List Int) (i : Nat) (v : Int) :
    (posOf mem i v).Pairwise (· < ·) :=
  List.Pairwise.filter _ (List.pairwise_lt_range i)

theorem posOf_sound {mem : List Int} {i : Nat} {v : Int} {p : Nat} :
    p ∈ posOf mem i v ↔ p < i ∧ mem.get? p = some v := by
  simp [posOf, List.mem_filter, List.mem_range]

theorem length_posOf (mem : List Int) (n : Nat) (v : Int) :
    (posOf mem n v).length = (mem.take n).count v := by
  induction n with
  | zero => simp [posOf_zero]
  | succ i ih =>
    rw [posOf_succ, List.length_append, ih, List.take_succ, List.count_append]
    congr 1
    rcases hm : mem[i]? with _ | w
    · rw [List.get?_eq_getElem?, hm]
      simp
    · rw [List.get?_eq_getElem?, hm]
      by_cases hw : w = v
      · simp [hw, List.count_singleton]
      · simp [hw, Option.toList, List.count_singleton', hw]

theorem mem_take_iff (mem : List Int) (n : Nat) (v : Int) :
    v ∈ mem.take n ↔ ∃ j, j < n ∧ mem.get? j = some v := by
  induction n with
  | zero => simp
  | succ i ih =>
    rw [List.take_succ]
    simp only [List.mem_append, ih]
    constructor
    · rintro (⟨j, hj, hjv⟩ | hv)
      · exact ⟨j, Nat.lt_succ_of_lt hj, hjv⟩
      · refine ⟨i, Nat.lt_succ_self i, ?_⟩
        rw [List.get?_eq_getElem?]
        rcases hm : mem[i]? with _ | w
        · rw [hm] at hv; cases hv
        · rw [hm] at hv
          simp only [Option.toList, List.mem_singleton] at hv
          rw [hv]
    · rintro ⟨j, hj, hjv⟩
      rcases Nat.lt_succ_iff_lt_or_eq.mp hj with hj | rfl
      · exact Or.inl ⟨j, hj, hjv⟩
      · right
        rw [List.get?_eq_getElem?] at hjv
        rw [hjv]
        simp

/-! The scan-loop invariant. -/

theorem dictLookupD_eq_nil {pd : List (Int × List Nat)} {v : Int}
    (h : ¬(dictLookup pd v).isSome) : dictLookupD pd v = [] := by
  rcases hl : dictLookup pd v with _ | l
  · simp [dictLookupD, hl]
  · exact absurd (by simp [hl]) h

/-- One invariant-preserving pass over the remaining `k` indices of the
`usort_body` scan: the sorted duplicate-free `output`, the position lists, the
key set, and the total multiplicity count all extend as expected. -/
theorem usort_loop_spec (mem : List Int) :
    ∀ (k i : Nat) (output : List Int) (pd : List (Int × List Nat)),
      i + k ≤ mem.length →
      (∀ v, v ∈ output ↔ ∃ j, j < i ∧ mem.get? j = some v) →
      output.Pairwise (· < ·) →
      (∀ v, (dictLookup pd v).isSome ↔ ∃ j, j < i ∧ mem.get? j = some v) →
      (∀ v, dictLookupD pd v = posOf mem i v) →
      (pd.map Prod.fst).Nodup →
      (output.map (fun v => (dictLookupD pd v).length)).sum = i →
      ∃ output' pd',
        usort_loop mem k i output pd = .ok (output', pd') ∧
        (∀ v, v ∈ output' ↔ ∃ j, j < i + k ∧ mem.get? j = some v) ∧
        output'.Pairwise (· < ·) ∧
        (∀ v, (dictLookup pd' v).isSome ↔ ∃ j, j < i + k ∧ mem.get? j = some v) ∧
        (∀ v, dictLookupD pd' v = posOf mem (i + k) v) ∧
        (pd'.map Prod.fst).Nodup ∧
        (output'.map (fun v => (dictLookupD pd' v).length)).sum = i + k := by
  intro k
  induction k with
  | zero =>
    intro i output pd _ hA hB hC hD hE hF
    exact ⟨output, pd, rfl, by simpa using hA, hB, by simpa using hC,
      by simpa using hD, hE, by simpa using hF⟩
  | succ k ih =>
    intro i output pd hlen hA hB hC hD hE hF
    have hi : i < mem.length := by omega
    have hval : mem.get? i = some (mem.get ⟨i, hi⟩) := List.get?_eq_get hi
    set val := mem.get ⟨i, hi⟩ with hvaldef
    have hval' : mem[i]? = some val := by
      rw [← List.get?_eq_getElem?]
      exact hval
    have memIff : ∀ v : Int,
        (∃ j, j < i + 1 ∧ mem.get? j = some v) ↔
          (∃ j, j < i ∧ mem.get? j = some v) ∨ v = val := by
      intro v
      constructor
      · rintro ⟨j, hj, hjv⟩
        rcases Nat.lt_succ_iff_lt_or_eq.mp hj with hj | rfl
        · exact Or.inl ⟨j, hj, hjv⟩
        · right
          rw [hval] at hjv
          exact (Option.some.inj hjv).symm
      · rintro (⟨j, hj, hjv⟩ | rfl)
        · exact ⟨j, Nat.lt_succ_of_lt hj, hjv⟩
        · exact ⟨i, Nat.lt_succ_self i, hval⟩
    -- properties of the updated dict
    have hC' : ∀ v, (dictLookup (dictPush pd val i) v).isSome ↔
        ∃ j, j < i + 1 ∧ mem.get? j = some v := by
      intro v
      rw [dictLookup_push, memIff, ← hC v]
      by_cases hvv : v = val <;> simp [hvv]
    have hD' : ∀ v, dictLookupD (dictPush pd val i) v = posOf mem (i + 1) v := by
      intro v
      rw [posOf_succ, ← hD v]
      by_cases hvv : v = val
      · subst hvv
        simp [dictLookupD, dictLookup_push, List.get?_eq_getElem?, hval']
      · have hne : ¬mem[i]? = some v := by
          rw [hval']
          exact fun hc => hvv (Option.some.inj hc).symm
        simp [dictLookupD, dictLookup_push, hvv, List.get?_eq_getElem?, hne]
    have hE' : ((dictPush pd val i).map Prod.fst).Nodup := nodup_keys_push val i hE
    have hflen : ∀ v, (dictLookupD (dictPush pd val i) v).length =
        if v = val then (dictLookupD pd v).length + 1
        else (dictLookupD pd v).length := by
      intro v
      by_cases hvv : v = val
      · subst hvv
        simp [dictLookupD, dictLookup_push]
      · simp [dictLookupD, dictLookup_push, hvv]
    have hnodup_out : output.Nodup := hB.imp (fun h => ne_of_lt h)
    -- step through the match on binary_search
    cases hbs : binary_search output val with
    | ok j =>
      -- already present: output unchanged
      have hvalmem : val ∈ output := binary_search_ok_mem hbs
      have hA' : ∀ v, v ∈ output ↔ ∃ j, j < i + 1 ∧ mem.get? j = some v := by
        intro v
        rw [memIff, ← hA v]
        constructor
        · exact Or.inl
        · rintro (h | rfl)
          · exact h
          · exact hvalmem
      have hF' : (output.map
          (fun v => (dictLookupD (dictPush pd val i) v).length)).sum = i + 1 := by
        have hstep := sum_map_succ_at (l := output)
          (f := fun v => (dictLookupD (dictPush pd val i) v).length)
          (g := fun v => (dictLookupD pd v).length)
          hnodup_out hvalmem (by simp [hflen]) (fun x _ hx => by simp [hflen, hx])
        rw [hstep, hF]
      obtain ⟨output', pd', heq, p1, p2, p3, p4, p5, p6⟩ :=
        ih (i + 1) output (dictPush pd val i) (by omega) hA' hB hC' hD' hE' hF'
      refine ⟨output', pd', ?_, ?_, p2, ?_, ?_, p5, ?_⟩
      · simp only [usort_loop, hval, hbs]
        exact heq
      · intro v
        rw [p1 v]
        constructor <;> (rintro ⟨j, hj, hjv⟩; exact ⟨j, by omega, hjv⟩)
      · intro v
        rw [p3 v]
        constructor <;> (rintro ⟨j, hj, hjv⟩; exact ⟨j, by omega, hjv⟩)
      · intro v
        rw [p4 v]
        congr 1
        omega
      · rw [p6]
        omega
    | error idx =>
      -- absent: insert into output at the sorted position
      have hvalnot : val ∉ output := binary_search_err_not_mem hB hbs
      have hA' : ∀ v, v ∈ insertAt idx val output ↔
          ∃ j, j < i + 1 ∧ mem.get? j = some v := by
        intro v
        rw [mem_insertAt, memIff, ← hA v]
        tauto
      have hB' : (insertAt idx val output).Pairwise (· < ·) :=
        pairwise_insertAt hB hbs
      have hvil : (dictLookupD pd val).length = 0 := by
        have : ¬(dictLookup pd val).isSome := by
          rw [hC val, ← hA val]
          exact hvalnot
        rw [dictLookupD_eq_nil this]
        rfl
      have hF' : ((insertAt idx val output).map
          (fun v => (dictLookupD (dictPush pd val i) v).length)).sum = i + 1 := by
        rw [sum_map_insertAt]
        have hrest : (output.map
            (fun v => (dictLookupD (dictPush pd val i) v).length)).sum =
            (output.map (fun v => (dictLookupD pd v).length)).sum := by
          apply congrArg
          apply List.map_congr_left
          intro x hx
          have hxv : x ≠ val := fun hc => hvalnot (hc ▸ hx)
          simp [hflen, hxv]
        have hpv : (dictLookupD (dictPush pd val i) val).length = 1 := by
          rw [hflen val, if_pos rfl, hvil]
        rw [hpv, hrest, hF]
        omega
      obtain ⟨output', pd', heq, p1, p2, p3, p4, p5, p6⟩ :=
        ih (i + 1) (insertAt idx val output) (dictPush pd val i) (by omega)
          hA' hB' hC' hD' hE' hF'
      refine ⟨output', pd', ?_, ?_, p2, ?_, ?_, p5, ?_⟩
      · simp only [usort_loop, hval, hbs]
        exact heq
      · intro v
        rw [p1 v]
        constructor <;> (rintro ⟨j, hj, hjv⟩; exact ⟨j, by omega, hjv⟩)
      · intro v
        rw [p3 v]
        constructor <;> (rintro ⟨j, hj, hjv⟩; exact ⟨j, by omega, hjv⟩)
      · intro v
        rw [p4 v]
        congr 1
        omega
      · rw [p6]
        omega

/-! Success characterisation of `usort_body` and of the verification side. -/

theorem usort_body_ok {mem : List Int} {input_len : Int} {n : Nat}
    (s : ExecScopes) (hn : to_u64 input_len = some n)
    (hcap : ∀ cap, get_u64 s.usort_max_size = .ok cap → n ≤ cap)
    (hlen : n ≤ mem.length) :
    ∃ output pd,
      usort_body mem input_len s =
        (.ok ⟨output.length, output,
            output.map (fun v => (dictLookupD pd v).length)⟩,
          { s with positions_dict := some (.dictBigIntListU64 pd) }) ∧
      (∀ v, v ∈ output ↔ ∃ j, j < n ∧ mem.get? j = some v) ∧
      output.Pairwise (· < ·) ∧
      (∀ v, (dictLookup pd v).isSome ↔ ∃ j, j < n ∧ mem.get? j = some v) ∧
      (∀ v, dictLookupD pd v = posOf mem n v) ∧
      (pd.map Prod.fst).Nodup ∧
      (output.map (fun v => (dictLookupD pd v).length)).sum = n := by
  obtain ⟨output, pd, heq, p1, p2, p3, p4, p5, p6⟩ :=
    usort_loop_spec mem n 0 [] [] (by omega) (by simp) (by simp)
      (by simp [dictLookup]) (fun v => rfl) (by simp) (by simp)
  have hmain : usort_body_main mem n s =
      (.ok ⟨output.length, output,
          output.map (fun v => (dictLookupD pd v).length)⟩,
        { s with positions_dict := some (.dictBigIntListU64 pd) }) := by
    simp only [usort_body_main, heq]
  refine ⟨output, pd, ?_, by simpa using p1, p2, by simpa using p3,
    by simpa using p4, p5, by simpa using p6⟩
  simp only [usort_body, hn]
  cases hcaps : get_u64 s.usort_max_size with
  | ok cap =>
    show (if n > cap then (Except.error (.UsortOutOfRange cap input_len), s)
      else usort_body_main mem n s) = _
    rw [if_neg (not_lt.mpr (hcap cap hcaps))]
    exact hmain
  | error e => exact hmain

theorem walk_n_ok (n : Nat) :
    ∀ (ps : List Nat) (s : ExecScopes) (lp : Int),
      ps.length = n → s.positions = some (.listU64 ps) →
      s.last_pos = some (.int lp) →
      ∃ lp' : Int,
        walk_n n s = (.ok (),
          { s with positions := some (.listU64 []),
                   last_pos := some (.int lp') }) := by
  induction n with
  | zero =>
    intro ps s lp hlen hpos hlast
    have hps : ps = [] := List.length_eq_zero.mp hlen
    subst hps
    refine ⟨lp, ?_⟩
    rw [show walk_n 0 s = (.ok (), s) from rfl, ← hpos, ← hlast]
  | succ k ih =>
    intro ps s lp hlen hpos hlast
    have hne : ps ≠ [] := by
      intro hc
      rw [hc] at hlen
      cases hlen
    have hgl : ps.getLast? = some (ps.getLast hne) := List.getLast?_eq_getLast ps hne
    set cp := ps.getLast hne with hcp
    have hbody : verify_multiplicity_body s =
        (.ok ((cp : Int) - lp),
          { s with positions := some (.listU64 ps.dropLast),
                   last_pos := some (.int ((cp + 1 : Nat) : Int)) }) := by
      simp only [verify_multiplicity_body, hpos, get_listu64, hgl, hlast, get_int]
    have hdrop : ps.dropLast.length = k := by
      rw [List.length_dropLast, hlen]
      omega
    obtain ⟨lp', hrec⟩ := ih ps.dropLast
      { s with positions := some (.listU64 ps.dropLast),
               last_pos := some (.int ((cp + 1 : Nat) : Int)) }
      ((cp + 1 : Nat) : Int) hdrop rfl rfl
    refine ⟨lp', ?_⟩
    simp only [walk_n, hbody]
    exact hrec

theorem verify_value_ok {pd : List (Int × List Nat)} {v : Int} {l : List Nat}
    (s : ExecScopes) (hpd : s.positions_dict = some (.dictBigIntListU64 pd))
    (hl : dictLookup pd v = some l) :
    ∃ lp' : Int,
      verify_value v l.length s = (.ok (),
        { s with
          positions_dict := some (.dictBigIntListU64 (dictRemove pd v)),
          positions := some (.listU64 []),
          last_pos := some (.int lp') }) := by
  have husort : verify_usort v s = (.ok (),
      { s with
        positions_dict := some (.dictBigIntListU64 (dictRemove pd v)),
        positions := some (.listU64 l.reverse),
        last_pos := some (.int 0) }) := by
    simp only [verify_usort, hpd, get_dict, hl]
  have hrevlen : l.reverse.length = l.length := List.length_reverse l
  obtain ⟨lp', hwalk⟩ := walk_n_ok l.length l.reverse
    { s with
      positions_dict := some (.dictBigIntListU64 (dictRemove pd v)),
      positions := some (.listU64 l.reverse),
      last_pos := some (.int 0) } 0 hrevlen rfl rfl
  refine ⟨lp', ?_⟩
  simp only [verify_value, husort, hwalk, verify_multiplicity_assert, get_listu64,
    List.length_nil, if_true]

theorem verify_all_ok :
    ∀ (pairs : List (Int × Nat)) (pd : List (Int × List Nat)) (s : ExecScopes),
      s.positions_dict = some (.dictBigIntListU64 pd) →
      (pd.map Prod.fst).Nodup →
      (∀ w, (dictLookup pd w).isSome ↔ w ∈ pairs.map Prod.fst) →
      (pairs.map Prod.fst).Nodup →
      (∀ p ∈ pairs, ∀ l, dictLookup pd p.1 = some l → l.length = p.2) →
      ∃ s', verify_all pairs s = (.ok (), s') ∧
        s'.positions_dict = some (.dictBigIntListU64 []) := by
  intro pairs
  induction pairs with
  | nil =>
    intro pd s hs hnd hkeys _ _
    have hpd : pd = [] := dict_eq_nil_of_lookup_none (fun w => by
      rcases hl : dictLookup pd w with _ | l
      · rfl
      · exact absurd ((hkeys w).mp (by simp [hl])) (by simp))
    exact ⟨s, by simp [verify_all], by rw [hs, hpd]⟩
  | cons p rest ih =>
    obtain ⟨v, m⟩ := p
    intro pd s hs hnd hkeys hpnodup hm
    have hv : (dictLookup pd v).isSome := (hkeys v).mpr (by simp)
    rcases hl : dictLookup pd v with _ | l
    · rw [hl] at hv
      cases hv
    · have hlm : l.length = m := hm (v, m) (by simp) l hl
      obtain ⟨lp', hvv⟩ := verify_value_ok s hs hl
      simp only [List.map_cons, List.nodup_cons] at hpnodup
      obtain ⟨s', hall, hfin⟩ := ih (dictRemove pd v)
        { s with
          positions_dict := some (.dictBigIntListU64 (dictRemove pd v)),
          positions := some (.listU64 []),
          last_pos := some (.int lp') }
        rfl (nodup_keys_remove v hnd)
        (by
          intro w
          by_cases hwv : w = v
          · subst hwv
            rw [dictLookup_remove_self w hnd]
            simp [hpnodup.1]
          · rw [dictLookup_remove_ne pd hwv, hkeys w]
            simp [hwv])
        hpnodup.2
        (by
          intro q hq l' hl'
          by_cases hqv : q.1 = v
          · rw [hqv, dictLookup_remove_self v hnd] at hl'
            cases hl'
          · rw [dictLookup_remove_ne pd hqv] at hl'
            exact hm q (List.mem_cons_of_mem _ hq) l' hl')
      refine ⟨s', ?_, hfin⟩
      rw [show verify_all ((v, m) :: rest) s =
        match verify_value v m s with
        | (.error e, s') => (.error e, s')
        | (.ok _, s') => verify_all rest s' from rfl, ← hlm, hvv]
      exact hall

/-! Claim theorems. -/

/-- C1: for every input sequence of `n` integer values readable from memory,
if the size-cap check passes (cap absent, unreadable, or `n ≤ cap`) and the
length converts to a `u64`, `usort_body` succeeds; the output it writes is
strictly ascending with no duplicates and holds exactly the distinct input
values; `multiplicities[i]` counts the occurrences of `output[i]` in the
input; the multiplicities sum to `n`; and the stored `positions_dict` maps
each distinct value `v` to `posOf mem n v`, the ascending list of the indices
`j < n` with `mem[j] = v`, and holds no other keys. -/
theorem usort_body_correct (mem : List Int) (input_len : Int) (s : ExecScopes)
    (n : Nat) (hn : to_u64 input_len = some n)
    (hcap : ∀ cap, get_u64 s.usort_max_size = .ok cap → n ≤ cap)
    (hlen : n ≤ mem.length) :
    ∃ out pd,
      usort_body mem input_len s =
        (.ok out, { s with positions_dict := some (.dictBigIntListU64 pd) }) ∧
      out.output.Pairwise (· < ·) ∧
      out.output.Nodup ∧
      (∀ v, v ∈ out.output ↔ v ∈ mem.take n) ∧
      out.multiplicities = out.output.map (fun v => (mem.take n).count v) ∧
      out.multiplicities.sum = n ∧
      out.output_len = out.output.length ∧
      (∀ v, v ∈ mem.take n → dictLookup pd v = some (posOf mem n v)) ∧
      (∀ v, v ∉ mem.take n → dictLookup pd v = none) ∧
      (∀ v p, p ∈ posOf mem n v → p < n) ∧
      (∀ v, (posOf mem n v).Pairwise (· < ·)) := by
  obtain ⟨output, pd, heq, p1, p2, p3, p4, p5, p6⟩ := usort_body_ok s hn hcap hlen
  have hmult : output.map (fun v => (dictLookupD pd v).length) =
      output.map (fun v => (mem.take n).count v) := by
    apply List.map_congr_left
    intro x _
    rw [p4 x, length_posOf]
  refine ⟨⟨output.length, output,
    output.map (fun v => (dictLookupD pd v).length)⟩, pd, heq, p2,
    p2.imp (fun h => ne_of_lt h), ?_, hmult, p6, rfl, ?_, ?_,
    fun v p hp => posOf_mem_lt hp, fun v => posOf_pairwise mem n v⟩
  · intro v
    rw [p1 v, mem_take_iff]
  · intro v hv
    have hsome : (dictLookup pd v).isSome :=
      (p3 v).mpr ((mem_take_iff mem n v).mp hv)
    rcases hl : dictLookup pd v with _ | l
    · rw [hl] at hsome
      cases hsome
    · have hld : dictLookupD pd v = l := by simp [dictLookupD, hl]
      rw [← hld, p4 v]
  · intro v hv
    have hnone : ¬(dictLookup pd v).isSome := fun hc =>
      hv ((mem_take_iff mem n v).mpr ((p3 v).mp hc))
    rcases hl : dictLookup pd v with _ | l
    · rfl
    · exact absurd (by simp [hl]) hnone

theorem usort_body_correct_witness :
    to_u64 3 = some 3 ∧
    (∀ cap, get_u64 (ExecScopes.mk none none none none).usort_max_size =
      .ok cap → 3 ≤ cap) ∧
    3 ≤ [(3 : Int), 1, 3].length ∧
    (∃ out pd,
      usort_body [(3 : Int), 1, 3] 3 (ExecScopes.mk none none none none) =
        (.ok out, { ExecScopes.mk none none none none with
          positions_dict := some (.dictBigIntListU64 pd) }) ∧
      out.output.Pairwise (· < ·) ∧
      out.output.Nodup ∧
      (∀ v, v ∈ out.output ↔ v ∈ [(3 : Int), 1, 3].take 3) ∧
      out.multiplicities =
        out.output.map (fun v => ([(3 : Int), 1, 3].take 3).count v) ∧
      out.multiplicities.sum = 3 ∧
      out.output_len = out.output.length ∧
      (∀ v, v ∈ [(3 : Int), 1, 3].take 3 →
        dictLookup pd v = some (posOf [(3 : Int), 1, 3] 3 v)) ∧
      (∀ v, v ∉ [(3 : Int), 1, 3].take 3 → dictLookup pd v = none) ∧
      (∀ v p, p ∈ posOf [(3 : Int), 1, 3] 3 v → p < 3) ∧
      (∀ v, (posOf [(3 : Int), 1, 3] 3 v).Pairwise (· < ·))) :=
 by
  refine ⟨by decide, ?_, by decide, ?_⟩
  · intro cap hcap
    exact nomatch hcap
  · exact usort_body_correct [(3 : Int), 1, 3] 3 (ExecScopes.mk none none none none)
      3 (by decide) (by intro cap hcap; exact nomatch hcap) (by decide)

/-- C3: with a readable `u64` cap in scope and `input_len` converting to
`n > cap`, `usort_body` fails with `UsortOutOfRange (cap, input_len)` — for
every memory content (so before any input element is read, `mem = []`
included) and with the scope state returned unchanged (no write happened). -/
theorem usort_body_size_exceeded (mem : List Int) (input_len : Int)
    (s : ExecScopes) (cap n : Nat)
    (hcap : get_u64 s.usort_max_size = .ok cap)
    (hn : to_u64 input_len = some n) (hgt : cap < n) :
    usort_body mem input_len s =
      (.error (.UsortOutOfRange cap input_len), s) := by
  simp only [usort_body, hn, hcap]
  show (if n > cap then (Except.error (.UsortOutOfRange cap input_len), s)
    else usort_body_main mem n s) = _
  rw [if_pos hgt]

theorem usort_body_size_exceeded_witness :
    get_u64 (ExecScopes.mk (some (.u64 1)) none none none).usort_max_size =
      .ok 1 ∧
    to_u64 5 = some 5 ∧ 1 < 5 ∧
    usort_body [] 5 (ExecScopes.mk (some (.u64 1)) none none none) =
      (.error (.UsortOutOfRange 1 5),
        ExecScopes.mk (some (.u64 1)) none none none) := by
  refine ⟨rfl, by decide, by decide, ?_⟩
  exact usort_body_size_exceeded [] 5
    (ExecScopes.mk (some (.u64 1)) none none none) 1 5 rfl (by decide) (by decide)

/-- C4: `verify_multiplicity_body` pops the last element of `positions`: on an
empty list it fails with `CouldntPopPositions` and the scope is unchanged;
otherwise it returns the gap `current_pos - last_pos` (the value written to
`next_item_index`), drops the popped element and sets
`last_pos := current_pos + 1`; and after `positions.length` walker calls one
further call fails with `CouldntPopPositions`. -/
theorem verify_multiplicity_body_spec (s : ExecScopes) (ps : List Nat)
    (hps : s.positions = some (.listU64 ps)) :
    (ps = [] → verify_multiplicity_body s = (.error .CouldntPopPositions, s)) ∧
    (∀ (l : List Nat) (cp : Nat) (lp : Int),
      ps = l ++ [cp] → s.last_pos = some (.int lp) →
      verify_multiplicity_body s =
        (.ok ((cp : Int) - lp),
          { s with positions := some (.listU64 l),
                   last_pos := some (.int ((cp + 1 : Nat) : Int)) })) ∧
    (∀ lp, s.last_pos = some (.int lp) →
      (walk_n ps.length s).1 = .ok () ∧
      (verify_multiplicity_body (walk_n ps.length s).2).1 =
        .error .CouldntPopPositions) := by
  refine ⟨?_, ?_, ?_⟩
  · intro hnil
    subst hnil
    simp [verify_multiplicity_body, hps, get_listu64]
  · intro l cp lp hcat hlast
    subst hcat
    simp only [verify_multiplicity_body, hps, get_listu64, List.getLast?_concat,
      List.dropLast_concat, hlast, get_int]
  · intro lp hlast
    obtain ⟨lp', hw⟩ := walk_n_ok ps.length ps s lp rfl hps hlast
    rw [hw]
    exact ⟨rfl, by simp [verify_multiplicity_body, get_listu64]⟩

theorem verify_multiplicity_body_spec_witness :
    (ExecScopes.mk none none (some (.listU64 [0]))
        (some (.int 0))).positions = some (.listU64 [0]) ∧
    (([0] : List Nat) = [] →
      verify_multiplicity_body
          (ExecScopes.mk none none (some (.listU64 [0])) (some (.int 0))) =
        (.error .CouldntPopPositions,
          ExecScopes.mk none none (some (.listU64 [0])) (some (.int 0)))) ∧
    (∀ (l : List Nat) (cp : Nat) (lp : Int), ([0] : List Nat) = l ++ [cp] →
      (ExecScopes.mk none none (some (.listU64 [0]))
          (some (.int 0))).last_pos = some (.int lp) →
      verify_multiplicity_body
          (ExecScopes.mk none none (some (.listU64 [0])) (some (.int 0))) =
        (.ok ((cp : Int) - lp),
          { ExecScopes.mk none none (some (.listU64 [0])) (some (.int 0)) with
            positions := some (.listU64 l),
            last_pos := some (.int ((cp + 1 : Nat) : Int)) })) ∧
    (∀ lp,
      (ExecScopes.mk none none (some (.listU64 [0]))
          (some (.int 0))).last_pos = some (.int lp) →
      (walk_n ([0] : List Nat).length
          (ExecScopes.mk none none (some (.listU64 [0])) (some (.int 0)))).1 =
        .ok () ∧
      (verify_multiplicity_body
          (walk_n ([0] : List Nat).length
            (ExecScopes.mk none none (some (.listU64 [0]))
              (some (.int 0)))).2).1 = .error .CouldntPopPositions) := by
  refine ⟨rfl, ?_⟩
  exact verify_multiplicity_body_spec
    (ExecScopes.mk none none (some (.listU64 [0])) (some (.int 0))) [0] rfl

/-- C5: `verify_usort` removes the presented value's entry from
`positions_dict`, stores the retrieved list reversed as `positions` and resets
`last_pos` to zero; a value with no entry (in particular the same value
presented a second time) fails with `UnexpectedPositionsDictFail` with the
scope unchanged, never treated as multiplicity zero. -/
theorem verify_usort_spec (s : ExecScopes) (pd : List (Int × List Nat)) (v : Int)
    (hpd : s.positions_dict = some (.dictBigIntListU64 pd))
    (hnd : (pd.map Prod.fst).Nodup) :
    (∀ l, dictLookup pd v = some l →
      verify_usort v s = (.ok (),
        { s with
          positions_dict := some (.dictBigIntListU64 (dictRemove pd v)),
          positions := some (.listU64 l.reverse),
          last_pos := some (.int 0) }) ∧
      (verify_usort v
        { s with
          positions_dict := some (.dictBigIntListU64 (dictRemove pd v)),
          positions := some (.listU64 l.reverse),
          last_pos := some (.int 0) }).1 = .error .UnexpectedPositionsDictFail) ∧
    (dictLookup pd v = none →
      verify_usort v s = (.error .UnexpectedPositionsDictFail, s)) := by
  constructor
  · intro l hl
    constructor
    · simp only [verify_usort, hpd, get_dict, hl]
    · simp only [verify_usort, get_dict, dictLookup_remove_self v hnd]
  · intro hl
    simp only [verify_usort, hpd, get_dict, hl]

theorem verify_usort_spec_witness :
    (ExecScopes.mk none (some (.dictBigIntListU64 [(5, [0])])) none
        none).positions_dict = some (.dictBigIntListU64 [(5, [0])]) ∧
    (([(5, [0])] : List (Int × List Nat)).map Prod.fst).Nodup ∧
    ((∀ l, dictLookup [((5 : Int), [0])] 5 = some l →
      verify_usort 5
          (ExecScopes.mk none (some (.dictBigIntListU64 [(5, [0])])) none none) =
        (.ok (),
          { ExecScopes.mk none (some (.dictBigIntListU64 [(5, [0])])) none none with
            positions_dict :=
              some (.dictBigIntListU64 (dictRemove [((5 : Int), [0])] 5)),
            positions := some (.listU64 l.reverse),
            last_pos := some (.int 0) }) ∧
      (verify_usort 5
        { ExecScopes.mk none (some (.dictBigIntListU64 [(5, [0])])) none none with
          positions_dict :=
            some (.dictBigIntListU64 (dictRemove [((5 : Int), [0])] 5)),
          positions := some (.listU64 l.reverse),
          last_pos := some (.int 0) }).1 = .error .UnexpectedPositionsDictFail) ∧
    (dictLookup [((5 : Int), [0])] 5 = none →
      verify_usort 5
          (ExecScopes.mk none (some (.dictBigIntListU64 [(5, [0])])) none none) =
        (.error .UnexpectedPositionsDictFail,
          ExecScopes.mk none (some (.dictBigIntListU64 [(5, [0])])) none none))) := by
  refine ⟨rfl, by decide, ?_⟩
  exact verify_usort_spec
    (ExecScopes.mk none (some (.dictBigIntListU64 [(5, [0])])) none none)
    [(5, [0])] 5 rfl (by decide)

/-- C6: `verify_multiplicity_assert` succeeds — silently, with the scope
unchanged — exactly when the `positions` list is empty, and fails with
`PositionsLengthNotZero` when positions remain unconsumed. -/
theorem verify_multiplicity_assert_spec (s : ExecScopes) (ps : List Nat)
    (hps : s.positions = some (.listU64 ps)) :
    (verify_multiplicity_assert s = (.ok (), s) ↔ ps = []) ∧
    (ps ≠ [] →
      verify_multiplicity_assert s = (.error .PositionsLengthNotZero, s)) := by
  have hred : verify_multiplicity_assert s =
      (if ps.length = 0 then ((.ok (), s) : Except VirtualMachineError Unit × ExecScopes)
        else (.error .PositionsLengthNotZero, s)) := by
    simp only [verify_multiplicity_assert, hps, get_listu64]
  have hneg : ps ≠ [] → ¬ps.length = 0 := fun hne hc =>
    hne (List.length_eq_zero.mp hc)
  constructor
  · constructor
    · intro h
      by_contra hne
      rw [hred, if_neg (hneg hne)] at h
      simp at h
    · intro h
      subst h
      simp [hred]
  · intro hne
    rw [hred, if_neg (hneg hne)]

theorem verify_multiplicity_assert_spec_witness :
    (ExecScopes.mk none none (some (.listU64 [3])) none).positions =
      some (.listU64 [3]) ∧
    ((verify_multiplicity_assert
        (ExecScopes.mk none none (some (.listU64 [3])) none) =
      (.ok (), ExecScopes.mk none none (some (.listU64 [3])) none) ↔
        ([3] : List Nat) = []) ∧
    (([3] : List Nat) ≠ [] →
      verify_multiplicity_assert
          (ExecScopes.mk none none (some (.listU64 [3])) none) =
        (.error .PositionsLengthNotZero,
          ExecScopes.mk none none (some (.listU64 [3])) none))) := by
  refine ⟨rfl, ?_⟩
  exact verify_multiplicity_assert_spec
    (ExecScopes.mk none none (some (.listU64 [3])) none) [3] rfl

theorem usort_loop_err (mem : List Int) :
    ∀ (k i : Nat) (output : List Int) (pd : List (Int × List Nat))
      (e : VirtualMachineError),
      usort_loop mem k i output pd = .error e → e = .MemoryGetFail := by
  intro k
  induction k with
  | zero =>
    intro i output pd e h
    cases h
  | succ k ih =>
    intro i output pd e h
    rcases hm : mem.get? i with _ | val
    · simp only [usort_loop, hm] at h
      exact (Except.error.inj h).symm
    · simp only [usort_loop, hm] at h
      exact ih _ _ _ _ h

theorem usort_loop_ok_len (mem : List Int) :
    ∀ (k i : Nat) (output : List Int) (pd : List (Int × List Nat)) r,
      usort_loop mem k i output pd = .ok r → k = 0 ∨ i + k ≤ mem.length := by
  intro k
  induction k with
  | zero =>
    intro i output pd r _
    exact Or.inl rfl
  | succ k ih =>
    intro i output pd r h
    rcases hm : mem.get? i with _ | val
    · simp only [usort_loop, hm] at h
      cases h
    · simp only [usort_loop, hm] at h
      obtain ⟨hi, _⟩ := List.get?_eq_some.mp hm
      rcases ih (i + 1) _ _ r h with h0 | hle
      · subst h0
        right
        omega
      · right
        omega

theorem usort_body_main_det (mem : List Int) (n : Nat) (s₁ s₂ : ExecScopes) :
    (usort_body_main mem n s₁).1 = (usort_body_main mem n s₂).1 ∧
    (∀ out, (usort_body_main mem n s₁).1 = .ok out →
      (usort_body_main mem n s₁).2.positions_dict =
        (usort_body_main mem n s₂).2.positions_dict) ∧
    (∀ out, (usort_body_main mem n s₁).1 = .ok out →
      out.multiplicities = out.output.map (fun v => (mem.take n).count v)) := by
  rcases hloop : usort_loop mem n 0 [] [] with e | ⟨output, pd⟩
  · have hm1 : ∀ t : ExecScopes, usort_body_main mem n t = (.error e, t) := by
      intro t
      simp only [usort_body_main, hloop]
    rw [hm1 s₁, hm1 s₂]
    refine ⟨rfl, ?_, ?_⟩
    · intro out hc
      exact nomatch hc
    · intro out hc
      exact nomatch hc
  · have hm1 : ∀ t : ExecScopes, usort_body_main mem n t =
        (.ok ⟨output.length, output,
          output.map (fun k => (dictLookupD pd k).length)⟩,
          { t with positions_dict := some (.dictBigIntListU64 pd) }) := by
      intro t
      simp only [usort_body_main, hloop]
    rw [hm1 s₁, hm1 s₂]
    refine ⟨rfl, fun out _ => rfl, ?_⟩
    intro out hok
    obtain rfl : (⟨output.length, output,
        output.map (fun k => (dictLookupD pd k).length)⟩ : UsortOutput) = out :=
      Except.ok.inj hok
    show output.map (fun k => (dictLookupD pd k).length) =
      output.map (fun v => (mem.take n).count v)
    rcases usort_loop_ok_len mem n 0 [] [] _ hloop with h0 | hle
    · subst h0
      have hpair : (([], []) : List Int × List (Int × List Nat)) = (output, pd) :=
        Except.ok.inj hloop
      obtain ⟨h1, h2⟩ := Prod.mk.inj hpair
      subst h1
      subst h2
      rfl
    · obtain ⟨output', pd', heq, p1, p2, p3, p4, p5, p6⟩ :=
        usort_loop_spec mem n 0 [] [] (by omega) (by simp) (by simp)
          (by simp [dictLookup]) (fun v => rfl) (by simp) (by simp)
      rw [heq] at hloop
      obtain ⟨h1, h2⟩ := Prod.mk.inj (Except.ok.inj hloop)
      subst h1
      subst h2
      apply List.map_congr_left
      intro x _
      have hx := p4 x
      rw [Nat.zero_add] at hx
      rw [hx, length_posOf]

/-- C10: on `input_len = 0` — whatever the cap state and the memory —
`usort_body` succeeds with `output_len = 0`, writes no element into either
freshly allocated region (both returned contents are empty), and stores an
empty `positions_dict`; every subsequent `verify_usort` call then fails with
`UnexpectedPositionsDictFail`, for every value. -/
theorem usort_body_empty_input (mem : List Int) (s : ExecScopes) (v : Int) :
    usort_body mem 0 s =
      (.ok ⟨0, [], []⟩,
        { s with positions_dict := some (.dictBigIntListU64 []) }) ∧
    verify_usort v { s with positions_dict := some (.dictBigIntListU64 []) } =
      (.error .UnexpectedPositionsDictFail,
        { s with positions_dict := some (.dictBigIntListU64 []) }) := by
  constructor
  · have h0 : to_u64 0 = some 0 := by decide
    simp only [usort_body, h0]
    have hmain : usort_body_main mem 0 s =
        (.ok ⟨0, [], []⟩,
          { s with positions_dict := some (.dictBigIntListU64 []) }) := rfl
    cases hcaps : get_u64 s.usort_max_size with
    | ok cap =>
      show (if 0 > cap then (Except.error (.UsortOutOfRange cap 0), s)
        else usort_body_main mem 0 s) = _
      rw [if_neg (by omega)]
      exact hmain
    | error e => exact hmain
  · simp [verify_usort, get_dict, dictLookup]

/-- C8: whenever the `usort_max_size` scope lookup errors (name never set, or
holding a value of another kind, e.g. the `None` seeded by
`usort_enter_scope`), `usort_body` performs no size check at all: it behaves
identically to an absent cap, and never returns `UsortOutOfRange` for any
convertible length. -/
theorem usort_body_cap_lookup_err (mem : List Int) (input_len : Int)
    (s : ExecScopes)
    (h : get_u64 s.usort_max_size = .error .ScopeVarFail) :
    (usort_body mem input_len s).1 =
      (usort_body mem input_len { s with usort_max_size := none }).1 ∧
    (usort_body mem input_len s).2 =
      { (usort_body mem input_len { s with usort_max_size := none }).2 with
        usort_max_size := s.usort_max_size } ∧
    (∀ cap len, (usort_body mem input_len s).1 ≠
      .error (.UsortOutOfRange cap len)) := by
  have h' : get_u64 ({ s with usort_max_size := none } :
      ExecScopes).usort_max_size = .error .ScopeVarFail := rfl
  rcases hn : to_u64 input_len with _ | n
  · have hb : ∀ t : ExecScopes,
        usort_body mem input_len t = (.error .BigintToUsizeFail, t) := by
      intro t
      simp only [usort_body, hn]
    rw [hb s, hb { s with usort_max_size := none }]
    refine ⟨rfl, rfl, ?_⟩
    intro cap len hc
    exact nomatch hc
  · have hb : ∀ t : ExecScopes,
        get_u64 t.usort_max_size = .error .ScopeVarFail →
        usort_body mem input_len t = usort_body_main mem n t := by
      intro t ht
      simp only [usort_body, hn, ht]
    rw [hb s h, hb { s with usort_max_size := none } h']
    rcases hloop : usort_loop mem n 0 [] [] with e | ⟨output, pd⟩
    · have he : e = .MemoryGetFail := usort_loop_err mem n 0 [] [] e hloop
      subst he
      have hm1 : ∀ t : ExecScopes,
          usort_body_main mem n t = (.error .MemoryGetFail, t) := by
        intro t
        simp only [usort_body_main, hloop]
      rw [hm1 s, hm1 { s with usort_max_size := none }]
      refine ⟨rfl, rfl, ?_⟩
      intro cap len hc
      exact nomatch hc
    · have hm1 : ∀ t : ExecScopes, usort_body_main mem n t =
          (.ok ⟨output.length, output,
            output.map (fun k => (dictLookupD pd k).length)⟩,
            { t with positions_dict := some (.dictBigIntListU64 pd) }) := by
        intro t
        simp only [usort_body_main, hloop]
      rw [hm1 s, hm1 { s with usort_max_size := none }]
      refine ⟨rfl, rfl, ?_⟩
      intro cap len hc
      exact nomatch hc

theorem usort_body_cap_lookup_err_witness :
    get_u64 (ExecScopes.mk (some .pyNone) none none none).usort_max_size =
      .error .ScopeVarFail ∧
    ((usort_body [(5 : Int)] 5 (ExecScopes.mk (some .pyNone) none none none)).1 =
      (usort_body [(5 : Int)] 5
        { ExecScopes.mk (some .pyNone) none none none with
          usort_max_size := none }).1 ∧
    (usort_body [(5 : Int)] 5 (ExecScopes.mk (some .pyNone) none none none)).2 =
      { (usort_body [(5 : Int)] 5
          { ExecScopes.mk (some .pyNone) none none none with
            usort_max_size := none }).2 with
        usort_max_size :=
          (ExecScopes.mk (some .pyNone) none none none).usort_max_size } ∧
    (∀ cap len,
      (usort_body [(5 : Int)] 5
          (ExecScopes.mk (some .pyNone) none none none)).1 ≠
        .error (.UsortOutOfRange cap len))) := by
  refine ⟨rfl, ?_⟩
  exact usort_body_cap_lookup_err [(5 : Int)] 5
    (ExecScopes.mk (some .pyNone) none none none) rfl

/-- C9: `usort_body` is deterministic in its observable effects: two runs on
identical memory, length and cap-lookup result produce the same result value
and, on success, the same stored `positions_dict`; and the multiplicities are
ordered by the sorted output (the i-th multiplicity counts the i-th output
value in the input), independent of any hash-map iteration order. -/
theorem usort_body_deterministic (mem : List Int) (input_len : Int)
    (s₁ s₂ : ExecScopes)
    (h : get_u64 s₁.usort_max_size = get_u64 s₂.usort_max_size) :
    (usort_body mem input_len s₁).1 = (usort_body mem input_len s₂).1 ∧
    (∀ out, (usort_body mem input_len s₁).1 = .ok out →
      (usort_body mem input_len s₁).2.positions_dict =
        (usort_body mem input_len s₂).2.positions_dict) ∧
    (∀ out n, to_u64 input_len = some n →
      (usort_body mem input_len s₁).1 = .ok out →
      out.multiplicities = out.output.map (fun v => (mem.take n).count v)) := by
  rcases hn : to_u64 input_len with _ | n
  · have hb : ∀ t : ExecScopes,
        usort_body mem input_len t = (.error .BigintToUsizeFail, t) := by
      intro t
      simp only [usort_body, hn]
    rw [hb s₁, hb s₂]
    refine ⟨rfl, ?_, ?_⟩
    · intro out hc
      exact nomatch hc
    · intro out n hn'
      exact nomatch hn'
  · cases hcaps : get_u64 s₂.usort_max_size with
    | ok cap =>
      by_cases hgt : n > cap
      · have hb : ∀ t : ExecScopes, get_u64 t.usort_max_size = .ok cap →
            usort_body mem input_len t =
              (.error (.UsortOutOfRange cap input_len), t) := by
          intro t ht
          simp only [usort_body, hn, ht]
          show (if n > cap then (Except.error (.UsortOutOfRange cap input_len), t)
            else usort_body_main mem n t) = _
          rw [if_pos hgt]
        rw [hb s₁ (h.trans hcaps), hb s₂ hcaps]
        refine ⟨rfl, ?_, ?_⟩
        · intro out hc
          exact nomatch hc
        · intro out n' hn' hc
          exact nomatch hc
      · have hb : ∀ t : ExecScopes, get_u64 t.usort_max_size = .ok cap →
            usort_body mem input_len t = usort_body_main mem n t := by
          intro t ht
          simp only [usort_body, hn, ht]
          show (if n > cap then (Except.error (.UsortOutOfRange cap input_len), t)
            else usort_body_main mem n t) = _
          rw [if_neg hgt]
        rw [hb s₁ (h.trans hcaps), hb s₂ hcaps]
        obtain ⟨q1, q2, q3⟩ := usort_body_main_det mem n s₁ s₂
        refine ⟨q1, q2, ?_⟩
        intro out n' hn' hok
        cases Option.some.inj hn'
        exact q3 out hok
    | error e =>
      have hb : ∀ t : ExecScopes, get_u64 t.usort_max_size = .error e →
          usort_body mem input_len t = usort_body_main mem n t := by
        intro t ht
        simp only [usort_body, hn, ht]
      rw [hb s₁ (h.trans hcaps), hb s₂ hcaps]
      obtain ⟨q1, q2, q3⟩ := usort_body_main_det mem n s₁ s₂
      refine ⟨q1, q2, ?_⟩
      intro out n' hn' hok
      cases Option.some.inj hn'
      exact q3 out hok

theorem usort_body_deterministic_witness :
    get_u64 (ExecScopes.mk (some (.u64 7)) none none none).usort_max_size =
      get_u64 (ExecScopes.mk (some (.u64 7))
        (some (.dictBigIntListU64 [(1, [2])])) (some (.listU64 [9]))
        (some (.int 4))).usort_max_size ∧
    ((usort_body [(3 : Int), 1, 3] 3
        (ExecScopes.mk (some (.u64 7)) none none none)).1 =
      (usort_body [(3 : Int), 1, 3] 3
        (ExecScopes.mk (some (.u64 7)) (some (.dictBigIntListU64 [(1, [2])]))
          (some (.listU64 [9])) (some (.int 4)))).1 ∧
    (∀ out, (usort_body [(3 : Int), 1, 3] 3
        (ExecScopes.mk (some (.u64 7)) none none none)).1 = .ok out →
      (usort_body [(3 : Int), 1, 3] 3
        (ExecScopes.mk (some (.u64 7)) none none none)).2.positions_dict =
      (usort_body [(3 : Int), 1, 3] 3
        (ExecScopes.mk (some (.u64 7)) (some (.dictBigIntListU64 [(1, [2])]))
          (some (.listU64 [9])) (some (.int 4)))).2.positions_dict) ∧
    (∀ out n, to_u64 3 = some n →
      (usort_body [(3 : Int), 1, 3] 3
        (ExecScopes.mk (some (.u64 7)) none none none)).1 = .ok out →
      out.multiplicities =
        out.output.map (fun v => ([(3 : Int), 1, 3].take n).count v))) := by
  refine ⟨rfl, ?_⟩
  exact usort_body_deterministic [(3 : Int), 1, 3] 3
    (ExecScopes.mk (some (.u64 7)) none none none)
    (ExecScopes.mk (some (.u64 7)) (some (.dictBigIntListU64 [(1, [2])]))
      (some (.listU64 [9])) (some (.int 4))) rfl

/-- C2: after a successful `usort_body`, running for each output value in
order `verify_usort`, then exactly `multiplicities[v]` calls of
`verify_multiplicity_body`, then `verify_multiplicity_assert`, every step
succeeds and no entry remains in the stored `positions_dict`. -/
theorem usort_roundtrip (mem : List Int) (input_len : Int) (s : ExecScopes)
    (n : Nat) (hn : to_u64 input_len = some n)
    (hcap : ∀ cap, get_u64 s.usort_max_size = .ok cap → n ≤ cap)
    (hlen : n ≤ mem.length) :
    ∃ out s₁ s₂,
      usort_body mem input_len s = (.ok out, s₁) ∧
      verify_all (out.output.zip out.multiplicities) s₁ = (.ok (), s₂) ∧
      s₂.positions_dict = some (.dictBigIntListU64 []) := by
  obtain ⟨output, pd, heq, p1, p2, p3, p4, p5, p6⟩ := usort_body_ok s hn hcap hlen
  have hnodup_out : output.Nodup := p2.imp (fun h => ne_of_lt h)
  have hzip : output.zip (output.map (fun v => (dictLookupD pd v).length)) =
      output.map (fun v => (v, (dictLookupD pd v).length)) := by
    have hz := List.zip_map' id (fun v => (dictLookupD pd v).length) output
    simpa using hz
  obtain ⟨s', hall, hfin⟩ := verify_all_ok
    (output.map (fun v => (v, (dictLookupD pd v).length)))
    pd { s with positions_dict := some (.dictBigIntListU64 pd) } rfl p5
    (by
      intro w
      have hfst : (output.map
          (fun v => (v, (dictLookupD pd v).length))).map Prod.fst = output := by
        rw [List.map_map]
        exact List.map_id output
      rw [hfst, p3 w, ← p1 w])
    (by
      have hfst : (output.map
          (fun v => (v, (dictLookupD pd v).length))).map Prod.fst = output := by
        rw [List.map_map]
        exact List.map_id output
      rw [hfst]
      exact hnodup_out)
    (by
      rintro q hq l' hl'
      rcases List.mem_map.mp hq with ⟨x, _, rfl⟩
      show l'.length = (dictLookupD pd x).length
      rw [show dictLookupD pd x = l' by simp [dictLookupD, hl']])
  refine ⟨⟨output.length, output,
    output.map (fun v => (dictLookupD pd v).length)⟩,
    { s with positions_dict := some (.dictBigIntListU64 pd) }, s', heq, ?_, hfin⟩
  show verify_all (output.zip
    (output.map (fun v => (dictLookupD pd v).length))) _ = _
  rw [hzip]
  exact hall

theorem usort_roundtrip_witness :
    to_u64 3 = some 3 ∧
    (∀ cap, get_u64 (ExecScopes.mk none (some (.int 0)) none
      none).usort_max_size = .ok cap → 3 ≤ cap) ∧
    3 ≤ [(3 : Int), 1, 2].length ∧
    (∃ out s₁ s₂,
      usort_body [(3 : Int), 1, 2] 3
          (ExecScopes.mk none (some (.int 0)) none none) = (.ok out, s₁) ∧
      verify_all (out.output.zip out.multiplicities) s₁ = (.ok (), s₂) ∧
      s₂.positions_dict = some (.dictBigIntListU64 [])) := by
  refine ⟨by decide, ?_, by decide, ?_⟩
  · intro cap hcap
    exact nomatch hcap
  · exact usort_roundtrip [(3 : Int), 1, 2] 3
      (ExecScopes.mk none (some (.int 0)) none none) 3 (by decide)
      (by intro cap hcap; exact nomatch hcap) (by decide)

/-- C7 counterexample: for the input sequence `[5]` with `input_len` 1 and cap
1, `usort_body` then `verify_usort 5` then one `verify_multiplicity_body` call
exposes gap `0` as `next_item_index` — value 5 sits at position 0 and the gap
is `current_position - last_position_counter = 0 - 0` — not the gap `5` the
claim asserts. -/
theorem usort_scenario_gap_counterexample :
    (verify_multiplicity_body
      (verify_usort 5
        (usort_body [(5 : Int)] 1
          (ExecScopes.mk (some (.u64 1)) none none none)).2).2).1 =
      .ok 0 ∧
    (verify_multiplicity_body
      (verify_usort 5
        (usort_body [(5 : Int)] 1
          (ExecScopes.mk (some (.u64 1)) none none none)).2).2).1 ≠
      .ok 5 := by
  have h1 : (verify_multiplicity_body
      (verify_usort 5
        (usort_body [(5 : Int)] 1
          (ExecScopes.mk (some (.u64 1)) none none none)).2).2).1 =
      .ok 0 := rfl
  refine ⟨h1, fun hc => ?_⟩
  have h2 : (0 : Int) = 5 := Except.ok.inj (h1.symm.trans hc)
  exact absurd h2 (by decide)

/-- C7 amended: input `[5]`, `input_len` 1, cap 1: `usort_body` produces
output `[5]` and multiplicities `[1]`; `verify_usort` on value 5 then one
`verify_multiplicity_body` call exposes gap `0` (the single position of 5) as
`next_item_index`, and `verify_multiplicity_assert` then succeeds. -/
theorem usort_scenario_single :
    (usort_body [(5 : Int)] 1
        (ExecScopes.mk (some (.u64 1)) none none none)).1 =
      .ok ⟨1, [5], [1]⟩ ∧
    (verify_usort 5
      (usort_body [(5 : Int)] 1
        (ExecScopes.mk (some (.u64 1)) none none none)).2).1 = .ok () ∧
    (verify_multiplicity_body
      (verify_usort 5
        (usort_body [(5 : Int)] 1
          (ExecScopes.mk (some (.u64 1)) none none none)).2).2).1 =
      .ok 0 ∧
    (verify_multiplicity_assert
      (verify_multiplicity_body
        (verify_usort 5
          (usort_body [(5 : Int)] 1
            (ExecScopes.mk (some (.u64 1)) none none none)).2).2).2).1 =
      .ok () :=
  ⟨rfl, rfl, rfl, rfl⟩

end Usort
